import Mathlib

/-!
# gptscript: console monitor, command line entry point and tool references

A shallow embedding of

* `pkg/monitor/display.go`: `Console.Start`, `newDisplay`, `display.Event`,
  `livePrinter.end`, `livePrinter.print`;
* `pkg/cli/gptscript.go`: `GPTScript.Pre`, `GPTScript.Run`, `listTools`,
  `listModels`;
* the reference grammar of `loader.SplitToolRef` (only its test is among the
  sources, so the function follows the written grammar).

Go values are translated as follows.  A `map[string]string` is an association
list read with `List.lookup`; an `int64` is an `Int` kept in range by
`wrapInt64`; a `time.Time` is a `Nat`; an `any` payload is an `Option String`
(`none` for `nil`); the package level variables and the standard streams are
fields of an explicit process state.  The structured logger (package `mvl`,
not among the sources) is taken to emit its line and return; its calls are left
out.
-/

namespace Monitor

/-- The kinds of `runner.Event`; `Other` stands for any value of the string
type that is none of the five constants. -/
inductive EventType where
  | CallStart
  | CallProgress
  | CallContinue
  | Chat
  | CallFinish
  | Other (name : String)
  deriving DecidableEq, Repr

/-- The part of `engine.Context` that `display.Event` reads: `ID`, the result of
`ParentID()` and `Tool.ID`. -/
structure CallContext where
  ID : String
  ParentID : String
  ToolID : String
  deriving DecidableEq, Repr

/-- The fields of `runner.Event` read by the display. -/
structure Event where
  Time : Nat
  CallContext : CallContext
  Typ : EventType
  Content : String
  ChatCompletionID : String
  ChatRequest : Option String
  ChatResponse : Option String
  ChatResponseCached : Bool
  deriving DecidableEq, Repr

/-- Go struct `message`. -/
structure message where
  CompletionID : String
  Request : Option String
  Response : Option String
  Cached : Bool
  deriving DecidableEq, Repr

/-- Go struct `call`. -/
structure call where
  ID : String
  ParentID : String
  ToolID : String
  Messages : List message
  Start : Nat
  End : Nat
  Input : String
  Output : String
  deriving DecidableEq, Repr

/-- Go struct `dump`; `Program` is the pointer handed to `Console.Start`,
kept by name. -/
structure dump where
  ID : String
  Program : Option String
  Calls : List call
  Input : String
  Output : String
  deriving DecidableEq, Repr

/-- Go struct `livePrinter`. -/
structure livePrinter where
  lastLines : List (String × String)
  needsNewline : Bool
  deriving DecidableEq, Repr

/-- Go struct `display` (the mutex is left out: events are handled one at a
time). A `nil` live printer is `none`. -/
structure display where
  dump : dump
  livePrinter : Option livePrinter
  dumpState : String
  callIDMap : List (String × String)
  deriving DecidableEq, Repr

/-- Go struct `Console`. -/
structure Console where
  dumpState : String
  displayProgress : Bool
  deriving DecidableEq, Repr

/-- The process state the monitor touches: the package level variables `runID`
and `prettyIDCounter`, and what has been printed to standard output. -/
structure Proc where
  runID : Int
  prettyIDCounter : Int
  stdout : List String
  deriving DecidableEq, Repr

/-- Two's complement wrap of an integer into the `int64` range. -/
def wrapInt64 (x : Int) : Int :=
  (x + 2 ^ 63) % 2 ^ 64 - 2 ^ 63

/-- The value returned (and stored) by `atomic.AddInt64(&v, 1)`. -/
def addInt64One (v : Int) : Int :=
  wrapInt64 (v + 1)

/-- The text `fmt.Sprint` gives for an `int64`. -/
def sprintInt (v : Int) : String :=
  toString v

/-- Go `newDisplay`. -/
def newDisplay (dumpState : String) (progress : Bool) : display :=
  { dump := { ID := "", Program := none, Calls := [], Input := "", Output := "" }
    livePrinter := if progress then some { lastLines := [], needsNewline := false } else none
    dumpState := dumpState
    callIDMap := [] }

/-- Go `Console.Start`: takes the next run id from the process wide counter and
returns a new display carrying it. -/
def Console.Start (c : Console) (w : Proc) (prg : Option String) (input : String) :
    Proc × display :=
  let id := addInt64One w.runID
  let mon := newDisplay c.dumpState c.displayProgress
  ({ w with runID := id },
   { mon with dump := { mon.dump with ID := sprintInt id, Program := prg, Input := input } })

/-- Go `livePrinter.end` on a possibly nil printer: returns the printer and the
text printed. -/
def livePrinter.end_ (l : Option livePrinter) : Option livePrinter × List String :=
  match l with
  | none => (none, [])
  | some p => (some { p with needsNewline := false }, if p.needsNewline then ["\n"] else [])

/-- Go `livePrinter.print` on a possibly nil printer. -/
def livePrinter.print (l : Option livePrinter) (event : Event) (c : call) :
    Option livePrinter × List String :=
  match l with
  | none => (none, [])
  | some p =>
    if c.ParentID ≠ "" then (some p, [])
    else
      let last := (p.lastLines.lookup c.ID).getD ""
      let line := if last.isPrefixOf event.Content then event.Content.drop last.length
                  else event.Content
      (some { lastLines := (c.ID, event.Content) :: p.lastLines
              needsNewline := decide (line.data.getLast? ≠ some (Char.ofNat 10)) },
       [line])

/-- The search loop at the head of `display.Event`: the index and the value of
the first record whose `ID` is `id`, counting from `i`. -/
def findCall : List call → String → Nat → Option (Nat × call)
  | [], _, _ => none
  | existing :: rest, id, i =>
    if id = existing.ID then some (i, existing) else findCall rest id (i + 1)

/-- The `switch event.Type` of `display.Event`: the updated copy of the current
call, the live printer and the text printed. -/
def applyEventType (event : Event) (currentCall : call) (lp : Option livePrinter) :
    call × Option livePrinter × List String :=
  match event.Typ with
  | .CallStart =>
    let r := livePrinter.end_ lp
    ({ currentCall with Start := event.Time, Input := event.Content }, r.1, r.2)
  | .CallProgress =>
    let r := livePrinter.print lp event currentCall
    (currentCall, r.1, r.2)
  | .CallContinue =>
    let r := livePrinter.end_ lp
    (currentCall, r.1, r.2)
  | .Chat =>
    let r := livePrinter.end_ lp
    ({ currentCall with
        Messages := currentCall.Messages ++
          [{ CompletionID := event.ChatCompletionID
             Request := event.ChatRequest
             Response := event.ChatResponse
             Cached := event.ChatResponseCached }] }, r.1, r.2)
  | .CallFinish =>
    let r := livePrinter.end_ lp
    ({ currentCall with End := event.Time, Output := event.Content }, r.1, r.2)
  | .Other _ => (currentCall, lp, [])

/-- Go `display.Event`. -/
def display.Event (w : Proc) (d : display) (event : Event) : Proc × display :=
  -- lines 95-116: find the record of the call or append a new one
  let found := findCall d.dump.Calls event.CallContext.ID 0
  let currentIndex := match found with
    | some (i, _) => i
    | none => d.dump.Calls.length
  let currentCall : call := match found with
    | some (_, existing) => existing
    | none =>
      { ID := event.CallContext.ID
        ParentID := event.CallContext.ParentID
        ToolID := event.CallContext.ToolID
        Messages := [], Start := 0, End := 0, Input := "", Output := "" }
  let calls := match found with
    | some _ => d.dump.Calls
    | none => d.dump.Calls ++ [currentCall]
  -- lines 123-127: the pretty id of the call
  let ok := d.callIDMap.lookup currentCall.ID
  let counter := match ok with
    | some _ => w.prettyIDCounter
    | none => addInt64One w.prettyIDCounter
  let callIDMap := match ok with
    | some _ => d.callIDMap
    | none => (currentCall.ID, sprintInt counter) :: d.callIDMap
  -- lines 136-174: the switch on the event type
  let r := applyEventType event currentCall d.livePrinter
  -- line 176: write the copy back
  ({ w with prettyIDCounter := counter, stdout := w.stdout ++ r.2.2 },
   { d with
      dump := { d.dump with Calls := calls.set currentIndex r.1 }
      livePrinter := r.2.1
      callIDMap := callIDMap })

/-- A sequence of events delivered to a display, one after the other. -/
def runEvents (w : Proc) (d : display) (events : List Event) : Proc × display :=
  events.foldl (fun s e => display.Event s.1 s.2 e) (w, d)

/-- The record `display.Event` makes for a call seen for the first time. -/
def newCall (event : Event) : call :=
  { ID := event.CallContext.ID
    ParentID := event.CallContext.ParentID
    ToolID := event.CallContext.ToolID
    Messages := [], Start := 0, End := 0, Input := "", Output := "" }

/-- The message a chat event adds. -/
def toMessage (event : Event) : message :=
  { CompletionID := event.ChatCompletionID
    Request := event.ChatRequest
    Response := event.ChatResponse
    Cached := event.ChatResponseCached }

/-- The messages of the chat events of call `id`, in arrival order. -/
def chatMessages (events : List Event) (id : String) : List message :=
  (events.filter (fun e => decide (e.Typ = EventType.Chat ∧ e.CallContext.ID = id))).map toMessage

/-- The call ids of a sequence of events, in arrival order. -/
def eventIDs (events : List Event) : List String :=
  events.map (fun e => e.CallContext.ID)

/-- The records `calls` are those the events `es` call for: one record for
each call id that occurred, in order of first occurrence, with the parent and
tool of the first event of the call and the messages of its chat events. -/
structure Tracks (es : List Event) (calls : List call) : Prop where
  nodup : (calls.map call.ID).Nodup
  mem_iff : ∀ id, id ∈ calls.map call.ID ↔ id ∈ eventIDs es
  order : (calls.map call.ID).Pairwise
    (fun a b => (eventIDs es).indexOf a < (eventIDs es).indexOf b)
  first : ∀ c ∈ calls, ∃ e, es.find? (fun e => decide (e.CallContext.ID = c.ID)) = some e ∧
    c.ParentID = e.CallContext.ParentID ∧ c.ToolID = e.CallContext.ToolID
  msgs : ∀ c ∈ calls, c.Messages = chatMessages es c.ID

/-- The records of a display made by `newDisplay` after the events `es`. -/
def finalCalls (w : Proc) (dumpState : String) (progress : Bool) (es : List Event) : List call :=
  (runEvents w (newDisplay dumpState progress) es).2.dump.Calls

/-- A process that has not handed out any id yet. -/
def procZero : Proc :=
  { runID := 0, prettyIDCounter := 0, stdout := [] }

/-- An event of call `id` with parent `parent`, tool `tool` and kind `t`. -/
def sampleEvent (id parent tool : String) (t : EventType) : Event :=
  { Time := 7
    CallContext := { ID := id, ParentID := parent, ToolID := tool }
    Typ := t
    Content := "text"
    ChatCompletionID := "cmpl-" ++ id
    ChatRequest := some "request"
    ChatResponse := none
    ChatResponseCached := true }

/-- A parent call that starts, a child call that starts and chats, and the
parent finishing after it. -/
def sampleEvents : List Event :=
  [ sampleEvent "1" "" "main.gpt:1" EventType.CallStart,
    sampleEvent "2" "1" "sub.gpt:1" EventType.CallStart,
    sampleEvent "2" "1" "sub.gpt:1" EventType.Chat,
    sampleEvent "1" "" "main.gpt:1" EventType.CallFinish ]

end Monitor

namespace Cli

/-- The flags of Go struct `GPTScript` (the embedded option structs are only
handed on to collaborators). -/
structure GPTScript where
  Debug : Bool
  Quiet : Bool
  Output : String
  Input : String
  SubTool : String
  Assemble : Bool
  ListModels : Bool
  ListTools : Bool
  Server : Bool
  ListenAddress : String
  deriving DecidableEq, Repr

/-- The calls `Pre` makes into the logging package `mvl`. -/
inductive MvlCall where
  | SetDebug
  | SetSimpleFormat
  | SetError
  deriving DecidableEq, Repr

/-- Go `GPTScript.Pre`; `isTerminal` is the result of
`term.IsTerminal(int(os.Stdout.Fd()))`.  The returned error is always nil. -/
def GPTScript.Pre (r : GPTScript) (isTerminal : Bool) : GPTScript × List MvlCall :=
  let r1 : GPTScript :=
    if r.Quiet then
      if isTerminal then { r with Quiet := false } else { r with Quiet := true }
    else r
  let calls : List MvlCall :=
    if r1.Debug then [.SetDebug]
    else [.SetSimpleFormat] ++ (if r1.Quiet then [.SetError] else [])
  (r1, calls)

/-- An error value produced by a collaborator package. -/
structure ExtErr where
  msg : String
  deriving DecidableEq, Repr

/-- The errors `Run` can return, told apart by where they are made: the two
`fmt.Errorf` calls of `Run` itself, and errors passed on unchanged. -/
inductive RunError where
  | scriptsArgumentRequired
  | opening (name : String) (err : ExtErr)
  | passed (err : ExtErr)
  deriving DecidableEq, Repr

/-- A resolved `types.Program`, kept by name. -/
structure Program where
  name : String
  deriving DecidableEq, Repr

/-- Where bytes are written. -/
inductive Sink where
  | stdout
  | stderr
  | file (name : String)
  deriving DecidableEq, Repr

/-- What `Run` does to the outside, in order. -/
inductive Effect where
  | newClient
  | listModules
  | serverNew (listenAddress : String)
  | serverStart
  | loaderProgram (ref : String) (subTool : String)
  | osCreate (name : String)
  | fileClose (name : String)
  | assemble (prg : Program)
  | runnerNew (displayProgress : Bool)
  | inputFromCLI (file : String) (args : List String)
  | runnerRun (prg : Program) (input : String)
  | osWriteFile (name : String) (data : String)
  | write (out : Sink) (text : String)
  deriving DecidableEq, Repr

/-- The answers of the collaborators `Run` calls. -/
structure Env where
  builtinListTools : List String
  openaiNewClient : Option ExtErr
  listModules : Except ExtErr (List String)
  serverNew : Option ExtErr
  serverStart : Option ExtErr
  loaderProgram : String → String → Except ExtErr Program
  osCreate : String → Option ExtErr
  assemble : Program → String × Option ExtErr
  runnerNew : Option ExtErr
  inputFromCLI : String → List String → Except ExtErr String
  runnerRun : Program → String → Except ExtErr String
  osWriteFile : String → String → Option ExtErr

/-- Go `GPTScript.listTools`. -/
def GPTScript.listTools (env : Env) : List Effect × Option RunError :=
  ([.write .stdout ("\n---\n".intercalate env.builtinListTools ++ "\n")], none)

/-- Go `GPTScript.listModels`. -/
def GPTScript.listModels (env : Env) : List Effect × Option RunError :=
  match env.openaiNewClient with
  | some err => ([.newClient], some (.passed err))
  | none =>
    match env.listModules with
    | .error err => ([.newClient, .listModules], some (.passed err))
    | .ok models =>
      ([.newClient, .listModules] ++ models.map (fun m => Effect.write .stdout (m ++ "\n")), none)

/-- The output step of `Run` (lines 165-184). -/
def GPTScript.writeOutput (env : Env) (r : GPTScript) (toolInput s : String) :
    List Effect × Option RunError :=
  if r.Output ≠ "" then
    match env.osWriteFile r.Output s with
    | some err => ([.osWriteFile r.Output s], some (.passed err))
    | none => ([.osWriteFile r.Output s], none)
  else
    ((if !r.Quiet then
        (if toolInput ≠ "" then
          [Effect.write .stderr "\nINPUT:\n\n", Effect.write .stderr (toolInput ++ "\n")]
         else []) ++ [Effect.write .stderr "\nOUTPUT:\n\n"]
      else []) ++
     [Effect.write .stdout s] ++
     (if s.data.getLast? ≠ some (Char.ofNat 10) then [Effect.write .stdout "\n"] else []),
     none)

/-- Go `GPTScript.Run`: the effects in order and the returned error. -/
def GPTScript.Run (env : Env) (r : GPTScript) (args : List String) :
    List Effect × Option RunError :=
  if r.ListModels then GPTScript.listModels env
  else if r.ListTools then GPTScript.listTools env
  else if r.Server then
    match env.serverNew with
    | some err => ([.serverNew r.ListenAddress], some (.passed err))
    | none => ([.serverNew r.ListenAddress, .serverStart], env.serverStart.map .passed)
  else
    match args with
    | [] => ([], some .scriptsArgumentRequired)
    | arg0 :: _ =>
      match env.loaderProgram arg0 r.SubTool with
      | .error err => ([.loaderProgram arg0 r.SubTool], some (.passed err))
      | .ok prg =>
        if r.Assemble then
          if r.Output ≠ "" ∧ r.Output ≠ "-" then
            match env.osCreate r.Output with
            | some err =>
              ([.loaderProgram arg0 r.SubTool, .osCreate r.Output],
               some (.opening r.Output err))
            | none =>
              ([.loaderProgram arg0 r.SubTool, .osCreate r.Output, .assemble prg,
                .write (.file r.Output) (env.assemble prg).1, .fileClose r.Output],
               (env.assemble prg).2.map .passed)
          else
            ([.loaderProgram arg0 r.SubTool, .assemble prg,
              .write .stdout (env.assemble prg).1],
             (env.assemble prg).2.map .passed)
        else
          match env.runnerNew with
          | some err =>
            ([.loaderProgram arg0 r.SubTool, .runnerNew (!r.Quiet)], some (.passed err))
          | none =>
            match env.inputFromCLI r.Input args with
            | .error err =>
              ([.loaderProgram arg0 r.SubTool, .runnerNew (!r.Quiet),
                .inputFromCLI r.Input args], some (.passed err))
            | .ok toolInput =>
              match env.runnerRun prg toolInput with
              | .error err =>
                ([.loaderProgram arg0 r.SubTool, .runnerNew (!r.Quiet),
                  .inputFromCLI r.Input args, .runnerRun prg toolInput],
                 some (.passed err))
              | .ok s =>
                let out := GPTScript.writeOutput env r toolInput s
                ([.loaderProgram arg0 r.SubTool, .runnerNew (!r.Quiet),
                  .inputFromCLI r.Input args, .runnerRun prg toolInput] ++ out.1, out.2)

/-- Collaborators that all succeed: the loader gives the program named by the
reference, the runner gives the text `result`. -/
def sampleEnv : Env :=
  { builtinListTools := ["sys.read", "sys.write"]
    openaiNewClient := none
    listModules := .ok ["gpt-4"]
    serverNew := none
    serverStart := none
    loaderProgram := fun ref _ => .ok { name := ref }
    osCreate := fun _ => none
    assemble := fun prg => ("artifact of " ++ prg.name, none)
    runnerNew := none
    inputFromCLI := fun _ args => .ok (" ".intercalate args.tail)
    runnerRun := fun _ _ => .ok "result"
    osWriteFile := fun _ _ => none }

/-- The flags of a command line without any flag. -/
def sampleFlags : GPTScript :=
  { Debug := false, Quiet := false, Output := "", Input := "", SubTool := ""
    Assemble := false, ListModels := false, ListTools := false, Server := false
    ListenAddress := "127.0.0.1:9090" }

end Cli

namespace Loader

/-- Modelled from the spec: the segmentation of a reference text behind the
words "token" and "text" of the reference grammar (part of `SplitToolRef`, which
is absent from the sources): the maximal runs of whitespace and of other
characters, in order.  A token is a run of non-whitespace characters; the runs
concatenated give the text back. -/
def pieces : List Char → List (List Char)
  | [] => []
  | c :: cs =>
    match pieces cs with
    | [] => [[c]]
    | [] :: ps => [c] :: ps
    | (d :: p) :: ps =>
      if c.isWhitespace = d.isWhitespace then (c :: d :: p) :: ps
      else [c] :: (d :: p) :: ps

/-- Modelled from the spec: the text before a token (part of the absent
`SplitToolRef`): the runs before the first run equal to `tok`, all of them when
it does not occur. -/
def beforeToken (tok : String) : List (List Char) → List (List Char)
  | [] => []
  | p :: ps => if p = tok.data then [] else p :: beforeToken tok ps

/-- Modelled from the spec: the text after a token (part of the absent
`SplitToolRef`): the runs after the first run equal to `tok`, none when it does
not occur. -/
def afterToken (tok : String) : List (List Char) → List (List Char)
  | [] => []
  | p :: ps => if p = tok.data then ps else afterToken tok ps

/-- Modelled from the spec: a text without the whitespace at its two ends, as
the examples of the grammar give the parts (`a from b with x` has tool `b`, not
` b `); whitespace inside is kept. -/
def trimSpace (cs : List Char) : List Char :=
  (cs.dropWhile Char.isWhitespace).rdropWhile Char.isWhitespace

/-- Modelled from the spec: the text a list of consecutive runs stands for,
without the whitespace at its ends (part of the absent `SplitToolRef`). -/
def textOf (ps : List (List Char)) : String :=
  String.mk (trimSpace ps.flatten)

/-- Modelled from the spec: `SplitToolRef` of package `loader` is not among the
sources (only `TestParse`, which calls it, is).  This is the splitting rule of
the reference grammar: when the token `from` appears, the text before it is the
subtool and the text after it, up to a token `with` or to the end, is the tool;
otherwise the text up to a token `with`, or to the end, is the tool and the
subtool is empty.  The result is the pair `(tool, subtool)`. -/
def SplitToolRef (targetToolName : String) : String × String :=
  let ps := pieces targetToolName.data
  if "from".data ∈ ps then
    (textOf (beforeToken "with" (afterToken "from" ps)), textOf (beforeToken "from" ps))
  else (textOf (beforeToken "with" ps), "")

/-- The class of a run: whether all its characters are whitespace. -/
def cls (p : List Char) : Bool :=
  p.all Char.isWhitespace

/-- A run: not empty, and all whitespace or all other characters. -/
def Hom (p : List Char) : Prop :=
  p ≠ [] ∧ ∀ c ∈ p, c.isWhitespace = cls p

/-- Consecutive runs: each is a run and neighbours differ in class. -/
def Alt (ps : List (List Char)) : Prop :=
  (∀ p ∈ ps, Hom p) ∧ ps.Chain' (fun p q => cls p ≠ cls q)

end Loader


/-! ## The console monitor -/

namespace Monitor

theorem findCall_none (cs : List call) (id : String) (i : Nat) :
    findCall cs id i = none ↔ id ∉ cs.map call.ID := by
  induction cs generalizing i with
  | nil => simp [findCall]
  | cons c rest ih =>
    simp only [findCall, List.map_cons, List.mem_cons, not_or]
    by_cases h : id = c.ID
    · simp [h]
    · simp [h, ih]

theorem findCall_some (cs : List call) (id : String) (i j : Nat) (c : call)
    (h : findCall cs id i = some (j, c)) :
    i ≤ j ∧ cs[j - i]? = some c ∧ c.ID = id := by
  induction cs generalizing i with
  | nil => simp [findCall] at h
  | cons x rest ih =>
    simp only [findCall] at h
    by_cases hx : id = x.ID
    · simp only [hx, if_true, Option.some.injEq, Prod.mk.injEq] at h
      obtain ⟨rfl, rfl⟩ := h
      simp [hx]
    · simp only [hx, if_false] at h
      obtain ⟨h1, h2, h3⟩ := ih (i + 1) h
      refine ⟨by omega, ?_, h3⟩
      have : j - i = (j - (i + 1)) + 1 := by omega
      rw [this, List.getElem?_cons_succ]
      exact h2

theorem applyEventType_ID (e : Event) (c : call) (lp : Option livePrinter) :
    (applyEventType e c lp).1.ID = c.ID := by
  unfold applyEventType; split <;> rfl

theorem applyEventType_ParentID (e : Event) (c : call) (lp : Option livePrinter) :
    (applyEventType e c lp).1.ParentID = c.ParentID := by
  unfold applyEventType; split <;> rfl

theorem applyEventType_ToolID (e : Event) (c : call) (lp : Option livePrinter) :
    (applyEventType e c lp).1.ToolID = c.ToolID := by
  unfold applyEventType; split <;> rfl

theorem applyEventType_Messages (e : Event) (c : call) (lp : Option livePrinter) :
    (applyEventType e c lp).1.Messages =
      c.Messages ++ (if e.Typ = EventType.Chat then [toMessage e] else []) := by
  unfold applyEventType; split <;> rename_i h <;> simp [h, toMessage]

/-- What `display.Event` does to the list of records when the call is already
there: the record at the found index is replaced by its updated copy. -/
theorem Event_calls_found (w : Proc) (d : display) (e : Event) (i : Nat) (c : call)
    (h : findCall d.dump.Calls e.CallContext.ID 0 = some (i, c)) :
    (display.Event w d e).2.dump.Calls =
      d.dump.Calls.set i (applyEventType e c d.livePrinter).1 := by
  simp [display.Event, h]

/-- What `display.Event` does to the list of records when the call is new: one
record is appended. -/
theorem Event_calls_new (w : Proc) (d : display) (e : Event)
    (h : findCall d.dump.Calls e.CallContext.ID 0 = none) :
    (display.Event w d e).2.dump.Calls =
      d.dump.Calls ++ [(applyEventType e (newCall e) d.livePrinter).1] := by
  simp [display.Event, h, newCall]

theorem set_getElem?_same {α : Type} (l : List α) (i : Nat) (a : α) (h : l[i]? = some a) :
    l.set i a = l := by
  apply List.ext_getElem?
  intro j
  rw [List.getElem?_set]
  by_cases hij : i = j
  · subst hij
    have hlt : i < l.length := by
      rcases Nat.lt_or_ge i l.length with h1 | h1
      · exact h1
      · rw [List.getElem?_eq_none h1] at h; cases h
    simp [hlt, h]
  · simp [hij]

theorem index_unique {α β : Type} (f : α → β) (l : List α) (i j : Nat) (a b : α)
    (hn : (l.map f).Nodup) (hi : l[i]? = some a) (hj : l[j]? = some b) (hf : f a = f b) :
    i = j := by
  induction l generalizing i j with
  | nil => simp at hi
  | cons x rest ih =>
    rw [List.map_cons, List.nodup_cons] at hn
    cases i with
    | zero =>
      cases j with
      | zero => rfl
      | succ j =>
        simp only [List.getElem?_cons_zero, Option.some.injEq] at hi
        rw [List.getElem?_cons_succ] at hj
        exfalso
        apply hn.1
        rw [hi, hf]
        exact List.mem_map_of_mem f (List.mem_iff_getElem?.mpr ⟨_, hj⟩)
    | succ i =>
      cases j with
      | zero =>
        simp only [List.getElem?_cons_zero, Option.some.injEq] at hj
        rw [List.getElem?_cons_succ] at hi
        exfalso
        apply hn.1
        rw [hj, ← hf]
        exact List.mem_map_of_mem f (List.mem_iff_getElem?.mpr ⟨_, hi⟩)
      | succ j =>
        rw [List.getElem?_cons_succ] at hi hj
        rw [ih i j hn.2 hi hj]

theorem chatMessages_snoc (es : List Event) (e : Event) (id : String) :
    chatMessages (es ++ [e]) id =
      chatMessages es id ++
        (if e.Typ = EventType.Chat ∧ e.CallContext.ID = id then [toMessage e] else []) := by
  unfold chatMessages
  rw [List.filter_append, List.map_append]
  by_cases h : e.Typ = EventType.Chat ∧ e.CallContext.ID = id
  · simp [List.filter, h]
  · simp [List.filter, h]

theorem chatMessages_of_not_mem (es : List Event) (id : String) (h : id ∉ eventIDs es) :
    chatMessages es id = [] := by
  unfold chatMessages
  rw [List.map_eq_nil_iff, List.filter_eq_nil_iff]
  intro e he
  simp only [decide_eq_true_eq, not_and]
  intro _ hid
  apply h
  rw [← hid]
  exact List.mem_map_of_mem _ he

theorem Tracks_nil : Tracks [] [] := by
  constructor <;> simp [eventIDs]

theorem find?_snoc_of_some (es : List Event) (e e0 : Event) (p : Event → Bool)
    (h : es.find? p = some e0) : (es ++ [e]).find? p = some e0 := by
  rw [List.find?_append, h]; rfl

theorem find?_id_none (es : List Event) (id : String) (h : id ∉ eventIDs es) :
    es.find? (fun x => decide (x.CallContext.ID = id)) = none := by
  rw [List.find?_eq_none]
  intro x hx
  simp only [decide_eq_true_eq]
  intro hxe
  apply h
  rw [← hxe]
  exact List.mem_map_of_mem _ hx

theorem Tracks_step_new (w : Proc) (d : display) (es : List Event) (e : Event)
    (h : Tracks es d.dump.Calls)
    (hf : findCall d.dump.Calls e.CallContext.ID 0 = none) :
    Tracks (es ++ [e]) (display.Event w d e).2.dump.Calls := by
  have hids : eventIDs (es ++ [e]) = eventIDs es ++ [e.CallContext.ID] := by simp [eventIDs]
  rw [Event_calls_new w d e hf]
  have hnot : e.CallContext.ID ∉ d.dump.Calls.map call.ID := (findCall_none _ _ _).mp hf
  have hnot2 : e.CallContext.ID ∉ eventIDs es := fun hm => hnot ((h.mem_iff _).mpr hm)
  have hid : (applyEventType e (newCall e) d.livePrinter).1.ID = e.CallContext.ID := by
    rw [applyEventType_ID]; rfl
  constructor
  · rw [List.map_append, List.map_singleton, hid]
    refine List.Nodup.append h.nodup (List.nodup_singleton _) ?_
    intro a ha hb
    rw [List.mem_singleton] at hb
    exact hnot (hb ▸ ha)
  · intro id
    rw [hids, List.map_append, List.mem_append, List.mem_append, h.mem_iff]
    simp [hid]
  · rw [hids, List.map_append, List.pairwise_append]
    refine ⟨?_, by simp, ?_⟩
    · refine h.order.imp_of_mem ?_
      intro a b ha hb hab
      rw [List.indexOf_append_of_mem ((h.mem_iff _).mp ha),
        List.indexOf_append_of_mem ((h.mem_iff _).mp hb)]
      exact hab
    · intro a ha b hb
      rw [List.map_singleton, List.mem_singleton, hid] at hb
      subst hb
      rw [List.indexOf_append_of_mem ((h.mem_iff _).mp ha),
        List.indexOf_append_of_not_mem hnot2]
      have := List.indexOf_lt_length.mpr ((h.mem_iff _).mp ha)
      omega
  · intro c hc
    rw [List.mem_append, List.mem_singleton] at hc
    rcases hc with hc | hc
    · obtain ⟨e0, h0, h1, h2⟩ := h.first c hc
      exact ⟨e0, find?_snoc_of_some es e e0 _ h0, h1, h2⟩
    · subst hc
      refine ⟨e, ?_, ?_, ?_⟩
      · rw [List.find?_append, hid, find?_id_none es _ hnot2]
        simp
      · rw [applyEventType_ParentID]; rfl
      · rw [applyEventType_ToolID]; rfl
  · intro c hc
    rw [List.mem_append, List.mem_singleton] at hc
    rcases hc with hc | hc
    · rw [chatMessages_snoc, h.msgs c hc]
      have hne : e.CallContext.ID ≠ c.ID := fun heq => hnot (heq ▸ List.mem_map_of_mem _ hc)
      simp [hne]
    · subst hc
      rw [chatMessages_snoc, hid, chatMessages_of_not_mem es _ hnot2, applyEventType_Messages]
      simp [newCall]

theorem Tracks_step_found (w : Proc) (d : display) (es : List Event) (e : Event)
    (i : Nat) (c : call) (h : Tracks es d.dump.Calls)
    (hf : findCall d.dump.Calls e.CallContext.ID 0 = some (i, c)) :
    Tracks (es ++ [e]) (display.Event w d e).2.dump.Calls := by
  have hids : eventIDs (es ++ [e]) = eventIDs es ++ [e.CallContext.ID] := by simp [eventIDs]
  rw [Event_calls_found w d e i c hf]
  obtain ⟨_, hget, hcid⟩ := findCall_some _ _ _ _ _ hf
  rw [Nat.sub_zero] at hget
  have hcmem : c ∈ d.dump.Calls := List.mem_iff_getElem?.mpr ⟨i, hget⟩
  have hmem : e.CallContext.ID ∈ eventIDs es :=
    (h.mem_iff _).mp (hcid ▸ List.mem_map_of_mem _ hcmem)
  have hid : (applyEventType e c d.livePrinter).1.ID = c.ID := applyEventType_ID e c _
  have hmap : (d.dump.Calls.set i (applyEventType e c d.livePrinter).1).map call.ID =
      d.dump.Calls.map call.ID := by
    rw [List.map_set, hid]
    apply set_getElem?_same
    rw [List.getElem?_map, hget]; rfl
  constructor
  · rw [hmap]; exact h.nodup
  · intro id
    rw [hmap, hids, List.mem_append, h.mem_iff, List.mem_singleton]
    constructor
    · intro hx; exact Or.inl hx
    · rintro (hx | hx)
      · exact hx
      · rw [hx]; exact hmem
  · rw [hmap, hids]
    refine h.order.imp_of_mem ?_
    intro a b ha hb hab
    rw [List.indexOf_append_of_mem ((h.mem_iff _).mp ha),
      List.indexOf_append_of_mem ((h.mem_iff _).mp hb)]
    exact hab
  · intro x hx
    rcases List.mem_or_eq_of_mem_set hx with hx | hx
    · obtain ⟨e0, h0, h1, h2⟩ := h.first x hx
      exact ⟨e0, find?_snoc_of_some es e e0 _ h0, h1, h2⟩
    · subst hx
      obtain ⟨e0, h0, h1, h2⟩ := h.first c hcmem
      refine ⟨e0, ?_, ?_, ?_⟩
      · rw [hid]; exact find?_snoc_of_some es e e0 _ h0
      · rw [applyEventType_ParentID]; exact h1
      · rw [applyEventType_ToolID]; exact h2
  · intro x hx
    obtain ⟨j, hj⟩ := List.mem_iff_getElem?.mp hx
    rw [List.getElem?_set] at hj
    by_cases hij : i = j
    · rw [if_pos hij] at hj
      split at hj
      · simp only [Option.some.injEq] at hj
        subst hj
        rw [hid, chatMessages_snoc, applyEventType_Messages, h.msgs c hcmem, hcid]
        by_cases ht : e.Typ = EventType.Chat
        · simp [ht]
        · simp [ht]
      · cases hj
    · rw [if_neg hij] at hj
      have hxmem : x ∈ d.dump.Calls := List.mem_iff_getElem?.mpr ⟨j, hj⟩
      have hne : e.CallContext.ID ≠ x.ID := by
        intro heq
        apply hij
        exact index_unique call.ID _ i j c x h.nodup hget hj (by rw [hcid, heq])
      rw [chatMessages_snoc, h.msgs x hxmem]
      simp [hne]

theorem Tracks_step (w : Proc) (d : display) (es : List Event) (e : Event)
    (h : Tracks es d.dump.Calls) :
    Tracks (es ++ [e]) (display.Event w d e).2.dump.Calls := by
  cases hf : findCall d.dump.Calls e.CallContext.ID 0 with
  | none => exact Tracks_step_new w d es e h hf
  | some p => exact Tracks_step_found w d es e p.1 p.2 h hf

theorem runEvents_snoc (w : Proc) (d : display) (es : List Event) (e : Event) :
    runEvents w d (es ++ [e]) =
      display.Event (runEvents w d es).1 (runEvents w d es).2 e := by
  simp [runEvents, List.foldl_append]

theorem Tracks_runEvents (w : Proc) (dumpState : String) (progress : Bool) (es : List Event) :
    Tracks es (runEvents w (newDisplay dumpState progress) es).2.dump.Calls := by
  induction es using List.reverseRecOn with
  | nil => exact Tracks_nil
  | append_singleton es e ih =>
    rw [runEvents_snoc]
    exact Tracks_step _ _ es e ih

/-- C1: after any finite sequence of events delivered to a display made by
`newDisplay`, no two records of `dump.Calls` share an ID, the IDs recorded are
exactly the call IDs that occurred, the records are in order of the first
occurrence of their IDs, and the `ParentID` and `ToolID` of each record are
those of the first event with that ID. -/
theorem C1_one_record_per_call (w : Proc) (dumpState : String) (progress : Bool)
    (es : List Event) :
    ((finalCalls w dumpState progress es).map call.ID).Nodup ∧
    (∀ id, id ∈ (finalCalls w dumpState progress es).map call.ID ↔ id ∈ eventIDs es) ∧
    ((finalCalls w dumpState progress es).map call.ID).Pairwise
      (fun a b => (eventIDs es).indexOf a < (eventIDs es).indexOf b) ∧
    (∀ c ∈ finalCalls w dumpState progress es,
      ∃ e, es.find? (fun e => decide (e.CallContext.ID = c.ID)) = some e ∧
        c.ParentID = e.CallContext.ParentID ∧ c.ToolID = e.CallContext.ToolID) := by
  have h := Tracks_runEvents w dumpState progress es
  exact ⟨h.nodup, h.mem_iff, h.order, h.first⟩

/-- C1 at the sample run: the two calls are recorded once each, parent first. -/
theorem C1_one_record_per_call_witness :
    (finalCalls procZero "" true sampleEvents).map
        (fun c => (c.ID, c.ParentID, c.ToolID)) =
      [("1", "", "main.gpt:1"), ("2", "1", "sub.gpt:1")] ∧
    ((finalCalls procZero "" true sampleEvents).map call.ID).Nodup :=
  ⟨by decide, (C1_one_record_per_call procZero "" true sampleEvents).1⟩

theorem Event_map_Messages (w : Proc) (d : display) (e : Event)
    (ht : e.Typ ≠ EventType.Chat) :
    (display.Event w d e).2.dump.Calls.map call.Messages =
      d.dump.Calls.map call.Messages ++
        (if e.CallContext.ID ∈ d.dump.Calls.map call.ID then [] else [[]]) := by
  cases hf : findCall d.dump.Calls e.CallContext.ID 0 with
  | none =>
    have hnot : e.CallContext.ID ∉ d.dump.Calls.map call.ID := (findCall_none _ _ _).mp hf
    rw [Event_calls_new w d e hf, if_neg hnot, List.map_append, List.map_singleton,
      applyEventType_Messages, if_neg ht]
    rfl
  | some p =>
    obtain ⟨i, c⟩ := p
    obtain ⟨_, hget, hcid⟩ := findCall_some _ _ _ _ _ hf
    rw [Nat.sub_zero] at hget
    have hmem : e.CallContext.ID ∈ d.dump.Calls.map call.ID :=
      hcid ▸ List.mem_map_of_mem _ (List.mem_iff_getElem?.mpr ⟨i, hget⟩)
    rw [Event_calls_found w d e i c hf, if_pos hmem, List.map_set, applyEventType_Messages,
      if_neg ht, List.append_nil, List.append_nil]
    apply set_getElem?_same
    rw [List.getElem?_map, hget]; rfl

theorem Event_other_records (w : Proc) (d : display) (e : Event) (i : Nat) (r : call)
    (hi : d.dump.Calls[i]? = some r) (hne : r.ID ≠ e.CallContext.ID) :
    (display.Event w d e).2.dump.Calls[i]? = some r := by
  cases hf : findCall d.dump.Calls e.CallContext.ID 0 with
  | none =>
    rw [Event_calls_new w d e hf]
    have hlt : i < d.dump.Calls.length := by
      rcases Nat.lt_or_ge i d.dump.Calls.length with h1 | h1
      · exact h1
      · rw [List.getElem?_eq_none h1] at hi; cases hi
    rw [List.getElem?_append_left hlt]
    exact hi
  | some p =>
    obtain ⟨j, c⟩ := p
    obtain ⟨_, hget, hcid⟩ := findCall_some _ _ _ _ _ hf
    rw [Nat.sub_zero] at hget
    rw [Event_calls_found w d e j c hf, List.getElem?_set]
    by_cases hji : j = i
    · subst hji
      rw [hget] at hi
      simp only [Option.some.injEq] at hi
      subst hi
      exact absurd hcid hne
    · rw [if_neg hji]; exact hi

theorem Event_length (w : Proc) (d : display) (e : Event) :
    (display.Event w d e).2.dump.Calls.length =
      d.dump.Calls.length + (if e.CallContext.ID ∈ d.dump.Calls.map call.ID then 0 else 1) := by
  cases hf : findCall d.dump.Calls e.CallContext.ID 0 with
  | none =>
    have hnot : e.CallContext.ID ∉ d.dump.Calls.map call.ID := (findCall_none _ _ _).mp hf
    rw [Event_calls_new w d e hf, if_neg hnot]
    simp
  | some p =>
    obtain ⟨i, c⟩ := p
    obtain ⟨_, hget, hcid⟩ := findCall_some _ _ _ _ _ hf
    rw [Nat.sub_zero] at hget
    have hmem : e.CallContext.ID ∈ d.dump.Calls.map call.ID :=
      hcid ▸ List.mem_map_of_mem _ (List.mem_iff_getElem?.mpr ⟨i, hget⟩)
    rw [Event_calls_found w d e i c hf, if_pos hmem]
    simp

theorem Event_lookup_kept (w : Proc) (d : display) (e : Event) (id pretty : String)
    (h : d.callIDMap.lookup id = some pretty) :
    (display.Event w d e).2.callIDMap.lookup id = some pretty := by
  simp only [display.Event]
  split
  · exact h
  · rename_i hnone
    rw [List.lookup_cons]
    split
    · rename_i hbeq
      have heq := eq_of_beq hbeq
      rw [heq] at h
      rw [h] at hnone
      cases hnone
    · exact h

/-- C2: after any finite sequence of events delivered to a fresh display, the
`Messages` of each record are, in arrival order, one message per `Chat` event of
that call, carrying the event's completion id, request, response and cache
flag; every call that occurred has such a record; and an event that is not a
`Chat` event leaves the `Messages` of every record, at every position, as they
were (a record it creates has none). -/
theorem C2_messages_are_chat_events (w : Proc) (dumpState : String) (progress : Bool)
    (es : List Event) :
    (∀ c ∈ finalCalls w dumpState progress es, c.Messages = chatMessages es c.ID) ∧
    (∀ id ∈ eventIDs es, ∃ c ∈ finalCalls w dumpState progress es,
      c.ID = id ∧ c.Messages = chatMessages es id) ∧
    (∀ (w1 : Proc) (d : display) (e : Event), e.Typ ≠ EventType.Chat →
      (display.Event w1 d e).2.dump.Calls.map call.Messages =
        d.dump.Calls.map call.Messages ++
          (if e.CallContext.ID ∈ d.dump.Calls.map call.ID then [] else [[]])) := by
  have h := Tracks_runEvents w dumpState progress es
  refine ⟨h.msgs, ?_, Event_map_Messages⟩
  intro id hid
  obtain ⟨c, hc, hcid⟩ := List.mem_map.mp ((h.mem_iff id).mpr hid)
  exact ⟨c, hc, hcid, hcid ▸ h.msgs c hc⟩

/-- C2 at the sample run: the record of the child call holds the one message of
its chat event. -/
theorem C2_messages_are_chat_events_witness :
    ({ ID := "2", ParentID := "1", ToolID := "sub.gpt:1"
       Messages := [{ CompletionID := "cmpl-2", Request := some "request", Response := none,
                      Cached := true }]
       Start := 7, End := 0, Input := "text", Output := "" } : call) ∈
      finalCalls procZero "" true sampleEvents ∧
    [({ CompletionID := "cmpl-2", Request := some "request", Response := none,
        Cached := true } : message)] = chatMessages sampleEvents "2" :=
  ⟨by decide,
   (C2_messages_are_chat_events procZero "" true sampleEvents).1
     { ID := "2", ParentID := "1", ToolID := "sub.gpt:1"
       Messages := [{ CompletionID := "cmpl-2", Request := some "request", Response := none,
                      Cached := true }]
       Start := 7, End := 0, Input := "text", Output := "" } (by decide)⟩

/-- C8: for every display state and every event of call `c`, `display.Event`
leaves each record whose ID differs from `c` at its position with all its
fields, lengthens `dump.Calls` by one record when `c` has no record yet and by
none otherwise, and keeps every pretty id already recorded in `callIDMap`. -/
theorem C8_event_frame (w : Proc) (d : display) (e : Event) :
    (∀ (i : Nat) (r : call), d.dump.Calls[i]? = some r → r.ID ≠ e.CallContext.ID →
      (display.Event w d e).2.dump.Calls[i]? = some r) ∧
    (display.Event w d e).2.dump.Calls.length =
      d.dump.Calls.length + (if e.CallContext.ID ∈ d.dump.Calls.map call.ID then 0 else 1) ∧
    (∀ id pretty : String, d.callIDMap.lookup id = some pretty →
      (display.Event w d e).2.callIDMap.lookup id = some pretty) :=
  ⟨Event_other_records w d e, Event_length w d e, Event_lookup_kept w d e⟩

/-- C8 at the sample run: a chat event of the child call, arriving while the
parent is still open, leaves the parent's record and pretty id as they were. -/
theorem C8_event_frame_witness :
    (runEvents procZero (newDisplay "" true) (sampleEvents.take 2)).2.dump.Calls[0]? =
      some { ID := "1", ParentID := "", ToolID := "main.gpt:1", Messages := [], Start := 7,
             End := 0, Input := "text", Output := "" } ∧
    (display.Event (runEvents procZero (newDisplay "" true) (sampleEvents.take 2)).1
      (runEvents procZero (newDisplay "" true) (sampleEvents.take 2)).2
      (sampleEvent "2" "1" "sub.gpt:1" EventType.Chat)).2.dump.Calls[0]? =
      some { ID := "1", ParentID := "", ToolID := "main.gpt:1", Messages := [], Start := 7,
             End := 0, Input := "text", Output := "" } :=
  ⟨by decide,
   (C8_event_frame (runEvents procZero (newDisplay "" true) (sampleEvents.take 2)).1
      (runEvents procZero (newDisplay "" true) (sampleEvents.take 2)).2
      (sampleEvent "2" "1" "sub.gpt:1" EventType.Chat)).1 0 _ (by decide) (by decide)⟩

theorem Event_same_counter (w1 w2 : Proc) (d : display) (e : Event)
    (h : w1.prettyIDCounter = w2.prettyIDCounter) :
    (display.Event w1 d e).2 = (display.Event w2 d e).2 ∧
    (display.Event w1 d e).1.prettyIDCounter = (display.Event w2 d e).1.prettyIDCounter := by
  simp [display.Event, h]

theorem runEvents_cons (w : Proc) (d : display) (e : Event) (es : List Event) :
    runEvents w d (e :: es) =
      runEvents (display.Event w d e).1 (display.Event w d e).2 es := by
  simp [runEvents]

theorem runEvents_same_counter (w1 w2 : Proc) (d : display) (es : List Event)
    (h : w1.prettyIDCounter = w2.prettyIDCounter) :
    (runEvents w1 d es).2 = (runEvents w2 d es).2 ∧
    (runEvents w1 d es).1.prettyIDCounter = (runEvents w2 d es).1.prettyIDCounter := by
  induction es generalizing w1 w2 d with
  | nil => exact ⟨rfl, h⟩
  | cons e es ih =>
    rw [runEvents_cons, runEvents_cons]
    obtain ⟨h1, h2⟩ := Event_same_counter w1 w2 d e h
    rw [h1]
    exact ih _ _ _ h2

theorem Event_currentCall_ID (d : display) (e : Event) :
    (match findCall d.dump.Calls e.CallContext.ID 0 with
      | some (_, existing) => existing
      | none =>
        ({ ID := e.CallContext.ID
           ParentID := e.CallContext.ParentID
           ToolID := e.CallContext.ToolID
           Messages := [], Start := 0, End := 0, Input := "", Output := "" } : call)).ID =
      e.CallContext.ID := by
  cases hf : findCall d.dump.Calls e.CallContext.ID 0 with
  | none => rfl
  | some p =>
    obtain ⟨i, c⟩ := p
    exact (findCall_some _ _ _ _ _ hf).2.2

/-- In any display state, an event of a call without a pretty id takes the next
value of the process wide counter. -/
theorem Event_pretty_new (w : Proc) (d : display) (e : Event)
    (h : d.callIDMap.lookup e.CallContext.ID = none) :
    (display.Event w d e).2.callIDMap =
      (e.CallContext.ID, sprintInt (addInt64One w.prettyIDCounter)) :: d.callIDMap ∧
    (display.Event w d e).1.prettyIDCounter = addInt64One w.prettyIDCounter := by
  have hid := Event_currentCall_ID d e
  simp only [display.Event]
  rw [hid, h]
  exact ⟨rfl, rfl⟩

/-- In any display state, an event of a call that has a pretty id leaves the
map and the process wide counter as they are. -/
theorem Event_pretty_old (w : Proc) (d : display) (e : Event) (pretty : String)
    (h : d.callIDMap.lookup e.CallContext.ID = some pretty) :
    (display.Event w d e).2.callIDMap = d.callIDMap ∧
    (display.Event w d e).1.prettyIDCounter = w.prettyIDCounter := by
  have hid := Event_currentCall_ID d e
  simp only [display.Event]
  rw [hid, h]
  exact ⟨rfl, rfl⟩

/-- C5, as the code has it: run ids and pretty ids come from the two process
wide counters `runID` and `prettyIDCounter`, shared by every display.
`Console.Start` gives the run id that follows the current value of `runID`.  In
any display state, `display.Event` gives a call that has no pretty id in the
display's `callIDMap` the value that follows the current `prettyIDCounter` and
advances the counter by one; a call that has one leaves map and counter alone.
So of two displays that handle a new call each, one after the other in the same
process, the second gets the value two after the start.  Two displays in the
same state, each fed the same events with no other display handling events in
between, end in the same state, pretty ids included, when `prettyIDCounter` has
the same value at their start. -/
theorem C5_ids_follow_process_counters (w1 w2 : Proc) (c : Console) (prg : Option String)
    (input dumpState : String) (progress : Bool) (d d2 : display) (e e2 : Event)
    (es : List Event) :
    (Console.Start c w1 prg input).2.dump.ID = sprintInt (addInt64One w1.runID) ∧
    (Console.Start c w1 prg input).1.runID = addInt64One w1.runID ∧
    (Console.Start c w1 prg input).1.prettyIDCounter = w1.prettyIDCounter ∧
    (display.Event w1 d e).1.runID = w1.runID ∧
    (display.Event w1 (newDisplay dumpState progress) e).2.callIDMap =
      [(e.CallContext.ID, sprintInt (addInt64One w1.prettyIDCounter))] ∧
    (display.Event w1 (newDisplay dumpState progress) e).1.prettyIDCounter =
      addInt64One w1.prettyIDCounter ∧
    (d.callIDMap.lookup e.CallContext.ID = none →
      (display.Event w1 d e).2.callIDMap =
        (e.CallContext.ID, sprintInt (addInt64One w1.prettyIDCounter)) :: d.callIDMap ∧
      (display.Event w1 d e).1.prettyIDCounter = addInt64One w1.prettyIDCounter) ∧
    (∀ pretty : String, d.callIDMap.lookup e.CallContext.ID = some pretty →
      (display.Event w1 d e).2.callIDMap = d.callIDMap ∧
      (display.Event w1 d e).1.prettyIDCounter = w1.prettyIDCounter) ∧
    (d.callIDMap.lookup e.CallContext.ID = none →
      d2.callIDMap.lookup e2.CallContext.ID = none →
      (display.Event (display.Event w1 d e).1 d2 e2).2.callIDMap =
        (e2.CallContext.ID, sprintInt (addInt64One (addInt64One w1.prettyIDCounter))) ::
          d2.callIDMap) ∧
    (w1.prettyIDCounter = w2.prettyIDCounter →
      (runEvents w1 d es).2 = (runEvents w2 d es).2 ∧
      (runEvents w1 d es).1.prettyIDCounter = (runEvents w2 d es).1.prettyIDCounter) := by
  refine ⟨rfl, rfl, rfl, rfl, ?_, ?_, Event_pretty_new w1 d e, Event_pretty_old w1 d e, ?_,
    runEvents_same_counter w1 w2 d es⟩
  · simp [display.Event, newDisplay, findCall]
  · simp [display.Event, newDisplay, findCall]
  · intro h1 h2
    rw [(Event_pretty_new _ d2 e2 h2).1, (Event_pretty_new w1 d e h1).2]

/-- C5 at a display that already holds call `1` with pretty id `6`, in a process
whose counter stands at `6`: the new call `2` gets pretty id `7`; and at two
processes whose counters agree while their output so far differs. -/
theorem C5_ids_follow_process_counters_witness :
    (display.Event { procZero with prettyIDCounter := 6 }
      (runEvents { procZero with prettyIDCounter := 5 } (newDisplay "" false)
        (sampleEvents.take 1)).2
      (sampleEvent "2" "1" "sub.gpt:1" EventType.CallStart)).2.callIDMap =
        [("2", "7"), ("1", "6")] ∧
    (runEvents procZero (newDisplay "" false) sampleEvents).2 =
      (runEvents { procZero with stdout := ["earlier"] } (newDisplay "" false)
        sampleEvents).2 :=
  ⟨((C5_ids_follow_process_counters { procZero with prettyIDCounter := 6 } procZero
      { dumpState := "", displayProgress := false } none "" "" false
      (runEvents { procZero with prettyIDCounter := 5 } (newDisplay "" false)
        (sampleEvents.take 1)).2
      (newDisplay "" false)
      (sampleEvent "2" "1" "sub.gpt:1" EventType.CallStart)
      (sampleEvent "2" "1" "sub.gpt:1" EventType.CallStart) []).2.2.2.2.2.2.1
      (by decide)).1,
   ((C5_ids_follow_process_counters procZero { procZero with stdout := ["earlier"] }
      { dumpState := "", displayProgress := false } none "" "" false (newDisplay "" false)
      (newDisplay "" false)
      (sampleEvent "1" "" "main.gpt:1" EventType.CallStart)
      (sampleEvent "1" "" "main.gpt:1" EventType.CallStart) sampleEvents).2.2.2.2.2.2.2.2.2
      rfl).1⟩

/-- C5 as stated fails: a fresh display fed one event of call `1` gives it the
pretty id `1`, and a second fresh display fed the same event afterwards in the
same process gives it the pretty id `2`; likewise the second `Console.Start`
gets run id `2`. -/
theorem C5_counterexample :
    (runEvents procZero (newDisplay "" false)
      [sampleEvent "1" "" "main.gpt:1" EventType.CallStart]).2.callIDMap.lookup "1" =
        some "1" ∧
    (runEvents
      (runEvents procZero (newDisplay "" false)
        [sampleEvent "1" "" "main.gpt:1" EventType.CallStart]).1
      (newDisplay "" false)
      [sampleEvent "1" "" "main.gpt:1" EventType.CallStart]).2.callIDMap.lookup "1" =
        some "2" ∧
    (Console.Start { dumpState := "", displayProgress := false } procZero none "").2.dump.ID =
      "1" ∧
    (Console.Start { dumpState := "", displayProgress := false }
      (Console.Start { dumpState := "", displayProgress := false } procZero none "").1
      none "").2.dump.ID = "2" := by
  decide

end Monitor

/-! ## The command line entry point -/

namespace Cli

/-- C3, evaluated: with `--output -` and without `--assemble`, a run that
reaches the output step writes the runner's text to a file named `-` and
nothing to standard output; with `--assemble` the artifact goes to standard
output and no file is created. -/
theorem C3_output_dash_writes_file :
    GPTScript.Run sampleEnv { sampleFlags with Output := "-" } ["tool.gpt"] =
      ([Effect.loaderProgram "tool.gpt" "", Effect.runnerNew true,
        Effect.inputFromCLI "" ["tool.gpt"], Effect.runnerRun { name := "tool.gpt" } "",
        Effect.osWriteFile "-" "result"], none) ∧
    GPTScript.Run sampleEnv { sampleFlags with Output := "-", Assemble := true } ["tool.gpt"] =
      ([Effect.loaderProgram "tool.gpt" "", Effect.assemble { name := "tool.gpt" },
        Effect.write Sink.stdout "artifact of tool.gpt"], none) := by
  decide

/-- C4, evaluated: with `--quiet`, no `--debug` and standard output a terminal,
`Pre` clears `Quiet` and does not call `mvl.SetError`; when standard output is
not a terminal `Quiet` stays set and `mvl.SetError` is called. -/
theorem C4_quiet_cleared_on_terminal :
    GPTScript.Pre { sampleFlags with Quiet := true } true =
      ({ sampleFlags with Quiet := false }, [MvlCall.SetSimpleFormat]) ∧
    GPTScript.Pre { sampleFlags with Quiet := true } false =
      ({ sampleFlags with Quiet := true }, [MvlCall.SetSimpleFormat, MvlCall.SetError]) := by
  decide

/-- C7: with no argument and none of `ListModels`, `ListTools`, `Server` set,
`Run` returns the error `scripts argument required` and has no effect at all
(nothing is loaded, assembled or run); when one of the three is set `Run` does
not return that error whatever the arguments; and the flags are looked at in
the order `ListModels`, `ListTools`, `Server`, before the arguments. -/
theorem C7_scripts_argument_required (env : Env) (r : GPTScript) (args : List String) :
    (r.ListModels = false → r.ListTools = false → r.Server = false → args = [] →
      GPTScript.Run env r args = ([], some RunError.scriptsArgumentRequired)) ∧
    ((r.ListModels = true ∨ r.ListTools = true ∨ r.Server = true) →
      (GPTScript.Run env r args).2 ≠ some RunError.scriptsArgumentRequired) ∧
    (r.ListModels = true → GPTScript.Run env r args = GPTScript.listModels env) ∧
    (r.ListModels = false → r.ListTools = true →
      GPTScript.Run env r args = GPTScript.listTools env) ∧
    (r.ListModels = false → r.ListTools = false → r.Server = true →
      (GPTScript.Run env r args).1.head? = some (Effect.serverNew r.ListenAddress)) := by
  refine ⟨?_, ?_, ?_, ?_, ?_⟩
  · intro h1 h2 h3 h4
    simp [GPTScript.Run, h1, h2, h3, h4]
  · intro h
    by_cases h1 : r.ListModels = true
    · simp only [GPTScript.Run, h1, if_true, GPTScript.listModels]
      cases env.openaiNewClient with
      | some err => simp
      | none =>
        cases env.listModules with
        | error err => simp
        | ok models => simp
    · by_cases h2 : r.ListTools = true
      · simp [GPTScript.Run, h1, h2, GPTScript.listTools]
      · have h3 : r.Server = true := by
          rcases h with h | h | h
          · exact absurd h h1
          · exact absurd h h2
          · exact h
        simp only [GPTScript.Run, h1, h2, h3, if_true, if_false]
        cases env.serverNew with
        | some err => simp
        | none => cases env.serverStart <;> simp
  · intro h1
    simp [GPTScript.Run, h1]
  · intro h1 h2
    simp [GPTScript.Run, h1, h2]
  · intro h1 h2 h3
    simp only [GPTScript.Run, h1, h2, h3]
    cases env.serverNew <;> simp

/-- C7 at the bare command line and at `--list-tools` without arguments. -/
theorem C7_scripts_argument_required_witness :
    GPTScript.Run sampleEnv sampleFlags [] = ([], some RunError.scriptsArgumentRequired) ∧
    (GPTScript.Run sampleEnv { sampleFlags with ListTools := true } []).2 ≠
      some RunError.scriptsArgumentRequired :=
  ⟨(C7_scripts_argument_required sampleEnv sampleFlags []).1 rfl rfl rfl rfl,
   (C7_scripts_argument_required sampleEnv { sampleFlags with ListTools := true } []).2.1
     (Or.inr (Or.inl rfl))⟩

end Cli

/-! ## Tool references -/

namespace Loader

theorem flatten_pieces (cs : List Char) : (pieces cs).flatten = cs := by
  induction cs with
  | nil => rfl
  | cons c cs ih =>
    unfold pieces
    split
    · rename_i h; rw [h] at ih; simp at ih; simp [← ih]
    · rename_i ps h; rw [h] at ih; simp at ih; simp [← ih]
    · rename_i d p ps h
      rw [h] at ih
      split <;> simp [← ih]

theorem pieces_cons_shape (c : Char) (cs : List Char) :
    ∃ p ps, pieces (c :: cs) = (c :: p) :: ps := by
  unfold pieces
  split
  · exact ⟨[], [], rfl⟩
  · rename_i ps h; exact ⟨[], ps, rfl⟩
  · rename_i d p ps h
    split
    · exact ⟨d :: p, ps, rfl⟩
    · exact ⟨[], (d :: p) :: ps, rfl⟩

theorem cls_cons_of_Hom (c : Char) (p : List Char) (h : Hom (c :: p)) :
    cls (c :: p) = c.isWhitespace :=
  (h.2 c (List.mem_cons_self _ _)).symm

theorem Hom_singleton (c : Char) : Hom [c] := by
  refine ⟨by simp, ?_⟩
  intro x hx
  rw [List.mem_singleton] at hx
  subst hx
  simp [cls]

theorem Hom_cons (c d : Char) (p : List Char) (h : Hom (d :: p))
    (hc : c.isWhitespace = d.isWhitespace) : Hom (c :: d :: p) ∧ cls (c :: d :: p) = cls (d :: p) := by
  have hd := cls_cons_of_Hom d p h
  have hcls : cls (c :: d :: p) = cls (d :: p) := by
    have : cls (c :: d :: p) = (c.isWhitespace && cls (d :: p)) := by simp [cls]
    rw [this, hd, hc, Bool.and_self]
  refine ⟨⟨by simp, ?_⟩, hcls⟩
  intro x hx
  rw [hcls]
  rcases List.mem_cons.mp hx with hx | hx
  · rw [hx, hc, hd]
  · exact h.2 x hx

theorem pieces_Alt (cs : List Char) : Alt (pieces cs) := by
  induction cs with
  | nil => exact ⟨by simp [pieces], by simp [pieces]⟩
  | cons c cs ih =>
    unfold pieces
    split
    · exact ⟨by simpa using Hom_singleton c, List.chain'_singleton _⟩
    · rename_i ps h
      rw [h] at ih
      exact absurd rfl (ih.1 [] (List.mem_cons_self _ _)).1
    · rename_i d p ps h
      rw [h] at ih
      have hdp : Hom (d :: p) := ih.1 _ (List.mem_cons_self _ _)
      split
      · rename_i hc
        obtain ⟨hh, hcls⟩ := Hom_cons c d p hdp hc
        refine ⟨?_, ?_⟩
        · intro q hq
          rcases List.mem_cons.mp hq with hq | hq
          · rw [hq]; exact hh
          · exact ih.1 q (List.mem_cons_of_mem _ hq)
        · have hch := ih.2
          rw [List.chain'_cons'] at hch ⊢
          refine ⟨?_, hch.2⟩
          intro y hy
          rw [hcls]
          exact hch.1 y hy
      · rename_i hc
        refine ⟨?_, ?_⟩
        · intro q hq
          rcases List.mem_cons.mp hq with hq | hq
          · rw [hq]; exact Hom_singleton c
          · exact ih.1 q hq
        · rw [List.chain'_cons]
          refine ⟨?_, ih.2⟩
          rw [cls_cons_of_Hom c [] (Hom_singleton c), cls_cons_of_Hom d p hdp]
          exact hc

theorem pieces_cons (c : Char) (cs : List Char) :
    pieces (c :: cs) =
      match pieces cs with
      | [] => [[c]]
      | [] :: ps => [c] :: ps
      | (d :: p) :: ps =>
        if c.isWhitespace = d.isWhitespace then (c :: d :: p) :: ps
        else [c] :: (d :: p) :: ps := by
  rw [pieces]

theorem Hom_tail (c d : Char) (p : List Char) (h : Hom (c :: d :: p)) :
    Hom (d :: p) ∧ cls (d :: p) = cls (c :: d :: p) ∧ c.isWhitespace = d.isWhitespace := by
  have hc := h.2 c (List.mem_cons_self _ _)
  have hd := h.2 d (List.mem_cons_of_mem _ (List.mem_cons_self _ _))
  have hall : ∀ x ∈ d :: p, x.isWhitespace = cls (c :: d :: p) :=
    fun x hx => h.2 x (List.mem_cons_of_mem _ hx)
  have hcls : cls (d :: p) = cls (c :: d :: p) := by
    cases hb : cls (c :: d :: p) with
    | true =>
      rw [hb] at hall
      simp only [cls, List.all_eq_true]
      exact hall
    | false =>
      rw [hb] at hd
      simp [cls, hd]
  refine ⟨⟨by simp, ?_⟩, hcls, by rw [hc, hd]⟩
  intro x hx
  rw [hcls]
  exact hall x hx

theorem pieces_run_append (p rest : List Char) (hp : Hom p)
    (hr : rest = [] ∨ ∃ d r, rest = d :: r ∧ d.isWhitespace ≠ cls p) :
    pieces (p ++ rest) = p :: pieces rest := by
  induction p with
  | nil => exact absurd rfl hp.1
  | cons c p ih =>
    cases p with
    | nil =>
      rcases hr with hr | ⟨d, r, hr, hne⟩
      · subst hr; simp [pieces]
      · subst hr
        obtain ⟨q, qs, hq⟩ := pieces_cons_shape d r
        rw [List.singleton_append, pieces_cons c (d :: r), hq]
        rw [cls_cons_of_Hom c [] hp] at hne
        simp only []
        rw [if_neg (fun h => hne h.symm)]
    | cons c2 p2 =>
      obtain ⟨h1, h2, h3⟩ := Hom_tail c c2 p2 hp
      have hr2 : rest = [] ∨ ∃ d r, rest = d :: r ∧ d.isWhitespace ≠ cls (c2 :: p2) := by
        rw [h2]; exact hr
      have ih2 := ih h1 hr2
      rw [List.cons_append, pieces_cons, ih2]
      simp only []
      rw [if_pos h3]

theorem Alt_tail (p : List Char) (ps : List (List Char)) (h : Alt (p :: ps)) : Alt ps :=
  ⟨fun q hq => h.1 q (List.mem_cons_of_mem _ hq), (List.chain'_cons'.mp h.2).2⟩

theorem pieces_flatten (ps : List (List Char)) (h : Alt ps) : pieces ps.flatten = ps := by
  induction ps with
  | nil => rfl
  | cons p ps ih =>
    have hp : Hom p := h.1 p (List.mem_cons_self _ _)
    rw [List.flatten_cons, pieces_run_append p ps.flatten hp, ih (Alt_tail p ps h)]
    cases ps with
    | nil => exact Or.inl rfl
    | cons q qs =>
      have hq : Hom q := h.1 q (List.mem_cons_of_mem _ (List.mem_cons_self _ _))
      have hne : cls p ≠ cls q := (List.chain'_cons.mp h.2).1
      cases q with
      | nil => exact absurd rfl hq.1
      | cons d q2 =>
        refine Or.inr ⟨d, q2 ++ qs.flatten, by simp, ?_⟩
        rw [← cls_cons_of_Hom d q2 hq]
        exact fun heq => hne heq.symm

theorem dropWhile_flatten (ps : List (List Char)) (h : Alt ps) :
    ∃ l qs, ps = l ++ qs ∧ ps.flatten.dropWhile Char.isWhitespace = qs.flatten := by
  cases ps with
  | nil => exact ⟨[], [], rfl, rfl⟩
  | cons p ps =>
    have hp : Hom p := h.1 p (List.mem_cons_self _ _)
    cases hb : cls p with
    | true =>
      have hall : ∀ a ∈ p, Char.isWhitespace a = true := fun a ha => by rw [hp.2 a ha, hb]
      rw [List.flatten_cons, List.dropWhile_append_of_pos hall]
      cases ps with
      | nil => exact ⟨[p], [], rfl, rfl⟩
      | cons q qs =>
        have hq : Hom q := h.1 q (List.mem_cons_of_mem _ (List.mem_cons_self _ _))
        have hne : cls p ≠ cls q := (List.chain'_cons.mp h.2).1
        cases q with
        | nil => exact absurd rfl hq.1
        | cons d q2 =>
          refine ⟨[p], (d :: q2) :: qs, rfl, ?_⟩
          have hd : ¬ (Char.isWhitespace d = true) := by
            rw [← cls_cons_of_Hom d q2 hq]
            intro hd
            exact hne (by rw [hb, hd])
          rw [List.flatten_cons, List.cons_append, List.dropWhile_cons_of_neg hd]
    | false =>
      cases p with
      | nil => exact absurd rfl hp.1
      | cons c p2 =>
        refine ⟨[], (c :: p2) :: ps, rfl, ?_⟩
        have hc : ¬ (Char.isWhitespace c = true) := by
          rw [← cls_cons_of_Hom c p2 hp, hb]
          simp
        rw [List.flatten_cons, List.cons_append, List.dropWhile_cons_of_neg hc]

theorem Alt_append (a b : List (List Char)) (h : Alt (a ++ b)) : Alt a ∧ Alt b :=
  ⟨⟨fun q hq => h.1 q (List.mem_append_left _ hq), h.2.left_of_append⟩,
   ⟨fun q hq => h.1 q (List.mem_append_right _ hq), h.2.right_of_append⟩⟩

theorem cls_reverse (p : List Char) : cls p.reverse = cls p := by
  cases hb : cls p with
  | true =>
    simp only [cls, List.all_eq_true] at hb ⊢
    intro x hx
    exact hb x (List.mem_reverse.mp hx)
  | false =>
    simp only [cls, List.all_eq_false] at hb ⊢
    obtain ⟨x, hx, hx2⟩ := hb
    exact ⟨x, List.mem_reverse.mpr hx, hx2⟩

theorem Hom_reverse (p : List Char) (h : Hom p) : Hom p.reverse := by
  refine ⟨fun hn => h.1 (List.reverse_eq_nil_iff.mp hn), ?_⟩
  intro c hc
  rw [cls_reverse]
  exact h.2 c (List.mem_reverse.mp hc)

theorem Alt_reverse (ps : List (List Char)) (h : Alt ps) :
    Alt (ps.map List.reverse).reverse := by
  refine ⟨?_, ?_⟩
  · intro q hq
    rw [List.mem_reverse, List.mem_map] at hq
    obtain ⟨p, hp, rfl⟩ := hq
    exact Hom_reverse p (h.1 p hp)
  · rw [List.chain'_reverse, List.chain'_map]
    refine h.2.imp ?_
    intro a b hab
    show cls b.reverse ≠ cls a.reverse
    rw [cls_reverse, cls_reverse]
    exact fun heq => hab heq.symm

theorem rdropWhile_flatten (ps : List (List Char)) (h : Alt ps) :
    ∃ qs r, ps = qs ++ r ∧ ps.flatten.rdropWhile Char.isWhitespace = qs.flatten := by
  obtain ⟨l, qs, h1, h2⟩ := dropWhile_flatten _ (Alt_reverse ps h)
  refine ⟨(qs.map List.reverse).reverse, (l.map List.reverse).reverse, ?_, ?_⟩
  · have hps : ps = (((ps.map List.reverse).reverse).map List.reverse).reverse := by
      simp [List.map_reverse, Function.comp_def]
    rw [hps, h1]
    simp [List.map_append, List.reverse_append]
  · unfold List.rdropWhile
    rw [List.reverse_flatten, h2, List.reverse_flatten]

theorem trimSpace_flatten (ps : List (List Char)) (h : Alt ps) :
    ∃ l qs r, ps = l ++ qs ++ r ∧ trimSpace ps.flatten = qs.flatten := by
  obtain ⟨l, qs1, h1, h2⟩ := dropWhile_flatten ps h
  have hq1 : Alt qs1 := (Alt_append l qs1 (h1 ▸ h)).2
  obtain ⟨qs, r, h3, h4⟩ := rdropWhile_flatten qs1 hq1
  refine ⟨l, qs, r, ?_, ?_⟩
  · rw [h1, h3, List.append_assoc]
  · rw [trimSpace, h2, h4]

/-- The tokens of the trimmed text of consecutive runs are among those runs. -/
theorem pieces_trimSpace_flatten (ps : List (List Char)) (h : Alt ps) :
    ∀ t ∈ pieces (trimSpace ps.flatten), t ∈ ps := by
  obtain ⟨l, qs, r, h1, h2⟩ := trimSpace_flatten ps h
  have hq : Alt qs := (Alt_append l qs (Alt_append (l ++ qs) r (h1 ▸ h)).1).2
  rw [h2, pieces_flatten qs hq]
  intro t ht
  rw [h1]
  exact List.mem_append_left _ (List.mem_append_right _ ht)

theorem beforeToken_append (tok : String) (a b : List (List Char)) (h : tok.data ∉ a) :
    beforeToken tok (a ++ tok.data :: b) = a := by
  induction a with
  | nil => simp [beforeToken]
  | cons x xs ih =>
    rw [List.mem_cons, not_or] at h
    have hx : x ≠ tok.data := fun hx => h.1 hx.symm
    simp [beforeToken, hx, ih h.2]

theorem beforeToken_of_not_mem (tok : String) (a : List (List Char)) (h : tok.data ∉ a) :
    beforeToken tok a = a := by
  induction a with
  | nil => rfl
  | cons x xs ih =>
    rw [List.mem_cons, not_or] at h
    have hx : x ≠ tok.data := fun hx => h.1 hx.symm
    simp [beforeToken, hx, ih h.2]

theorem afterToken_append (tok : String) (a b : List (List Char)) (h : tok.data ∉ a) :
    afterToken tok (a ++ tok.data :: b) = b := by
  induction a with
  | nil => simp [afterToken]
  | cons x xs ih =>
    rw [List.mem_cons, not_or] at h
    have hx : x ≠ tok.data := fun hx => h.1 hx.symm
    simp [afterToken, hx, ih h.2]

theorem not_mem_beforeToken (tok : String) (a : List (List Char)) :
    tok.data ∉ beforeToken tok a := by
  induction a with
  | nil => simp [beforeToken]
  | cons x xs ih =>
    by_cases hx : x = tok.data
    · simp [beforeToken, hx]
    · simp only [beforeToken, hx, if_false, List.mem_cons, not_or]
      exact ⟨fun h => hx h.symm, ih⟩

theorem beforeToken_split (tok : String) (a : List (List Char)) :
    ∃ r, a = beforeToken tok a ++ r := by
  induction a with
  | nil => exact ⟨[], rfl⟩
  | cons x xs ih =>
    by_cases hx : x = tok.data
    · exact ⟨x :: xs, by simp [beforeToken, hx]⟩
    · obtain ⟨r, hr⟩ := ih
      refine ⟨r, ?_⟩
      simp only [beforeToken, hx, if_false, List.cons_append]
      rw [← hr]

theorem afterToken_split (tok : String) (a : List (List Char)) :
    ∃ l, a = l ++ afterToken tok a := by
  induction a with
  | nil => exact ⟨[], rfl⟩
  | cons x xs ih =>
    by_cases hx : x = tok.data
    · exact ⟨[x], by simp [afterToken, hx]⟩
    · obtain ⟨l, hl⟩ := ih
      refine ⟨x :: l, ?_⟩
      simp only [afterToken, hx, if_false, List.cons_append]
      rw [← hl]

theorem SplitToolRef_from (s : String) (sub rest : List (List Char))
    (hs : pieces s.data = sub ++ "from".data :: rest) (h : "from".data ∉ sub) :
    SplitToolRef s = (textOf (beforeToken "with" rest), textOf sub) := by
  have hmem : "from".data ∈ pieces s.data := by rw [hs]; simp
  simp only [SplitToolRef]
  rw [if_pos hmem, hs, afterToken_append _ _ _ h, beforeToken_append _ _ _ h]

/-- The tool text never holds a `with` token. -/
theorem SplitToolRef_tool_no_with (s : String) :
    "with".data ∉ pieces (SplitToolRef s).1.data := by
  have hA := pieces_Alt s.data
  have key : ∀ X : List (List Char), Alt X →
      "with".data ∉ pieces (textOf (beforeToken "with" X)).data := by
    intro X hX hmem
    obtain ⟨r, hr⟩ := beforeToken_split "with" X
    have hb : Alt (beforeToken "with" X) := (Alt_append _ r (hr ▸ hX)).1
    exact not_mem_beforeToken "with" X (pieces_trimSpace_flatten _ hb _ hmem)
  simp only [SplitToolRef]
  split
  · obtain ⟨l, hl⟩ := afterToken_split "from" (pieces s.data)
    exact key _ (Alt_append l _ (hl ▸ hA)).2
  · exact key _ hA

/-- C6, as the grammar has it: `SplitToolRef` splits the text of a reference
at its tokens.  For a text whose runs are `sub from tool with args` or
`sub from tool` (no `from` token in `sub`, no `with` token in `tool`) the result
is the text of `tool` and the text of `sub`; for one whose runs are
`tool with args` or just `tool`, with no `from` token at all, the result is the
text of `tool` (the whole text when there is no `with` token) and the empty
subtool.  Each text is taken without the whitespace at its ends and with the
whitespace inside kept.  The `with` clause after the tool is in neither result
and the tool never holds a `with` token; the runs of a text concatenated are
the text; and the examples of the grammar come out as written. -/
theorem C6_SplitToolRef_grammar :
    (∀ (s : String) (sub tool args : List (List Char)),
      pieces s.data = sub ++ "from".data :: (tool ++ "with".data :: args) →
      "from".data ∉ sub → "with".data ∉ tool →
        SplitToolRef s = (textOf tool, textOf sub)) ∧
    (∀ (s : String) (sub tool : List (List Char)),
      pieces s.data = sub ++ "from".data :: tool →
      "from".data ∉ sub → "with".data ∉ tool →
        SplitToolRef s = (textOf tool, textOf sub)) ∧
    (∀ (s : String) (tool args : List (List Char)),
      pieces s.data = tool ++ "with".data :: args →
      "from".data ∉ tool → "from".data ∉ args → "with".data ∉ tool →
        SplitToolRef s = (textOf tool, "")) ∧
    (∀ (s : String), "from".data ∉ pieces s.data → "with".data ∉ pieces s.data →
        SplitToolRef s = (String.mk (trimSpace s.data), "")) ∧
    (∀ (s : String), "with".data ∉ pieces (SplitToolRef s).1.data) ∧
    (∀ (cs : List Char), (pieces cs).flatten = cs) ∧
    SplitToolRef "a from b with x" = ("b", "a") ∧
    SplitToolRef "a with x" = ("a", "") ∧
    SplitToolRef " my  file.gpt " = ("my  file.gpt", "") := by
  refine ⟨?_, ?_, ?_, ?_, SplitToolRef_tool_no_with, flatten_pieces,
    by decide, by decide, by decide⟩
  · intro s sub tool args hs h1 h2
    rw [SplitToolRef_from s sub _ hs h1, beforeToken_append _ _ _ h2]
  · intro s sub tool hs h1 h2
    rw [SplitToolRef_from s sub _ hs h1, beforeToken_of_not_mem _ _ h2]
  · intro s tool args hs h1 h2 h3
    have hnot : "from".data ∉ pieces s.data := by
      rw [hs]
      simp only [List.mem_append, List.mem_cons, not_or]
      exact ⟨h1, by decide, h2⟩
    simp only [SplitToolRef]
    rw [if_neg hnot, hs, beforeToken_append _ _ _ h3]
  · intro s h1 h2
    simp only [SplitToolRef]
    rw [if_neg h1, beforeToken_of_not_mem _ _ h2, textOf, flatten_pieces]

/-- C6 at a two word subtool, a path as tool and two arguments. -/
theorem C6_SplitToolRef_grammar_witness :
    pieces "my tool from ./lib.gpt with a b".data =
      ["my".data, " ".data, "tool".data, " ".data] ++ "from".data ::
        ([" ".data, "./lib.gpt".data, " ".data] ++ "with".data ::
          [" ".data, "a".data, " ".data, "b".data]) ∧
    SplitToolRef "my tool from ./lib.gpt with a b" = ("./lib.gpt", "my tool") :=
  ⟨by decide,
   C6_SplitToolRef_grammar.1 "my tool from ./lib.gpt with a b"
     ["my".data, " ".data, "tool".data, " ".data] [" ".data, "./lib.gpt".data, " ".data]
     [" ".data, "a".data, " ".data, "b".data] (by decide) (by decide) (by decide)⟩

/-- C6 as stated fails: in `a with x from b` the token `from` is present, so the
subtool is the text before it, and that text holds the `with` clause. -/
theorem C6_counterexample :
    SplitToolRef "a with x from b" = ("b", "a with x") ∧
    "with".data ∈ pieces (SplitToolRef "a with x from b").2.data := by
  decide

end Loader
